import Mathlib

/-!
Shallow embedding of `scripts/generate_metadata.py` from the
rh-community-store repository: the per-repository metadata resolver
(`RotorHazardPlugin`) and the batch aggregator (`MetadataGenerator`).

The GitHub client is modelled as the sequence of responses one resolver
task receives for its five calls (repository metadata, root directory
listing, `custom_plugins/` listing, manifest file content, releases
listing).  Each response is either data plus an optional etag, a
"not found" error (`GitHubNotFoundException`) or any other
`GitHubException`.  Manifest file content is modelled post transport
decoding: either a parsed JSON object or a JSON decode failure.
Python string truthiness (empty string falsy) is modelled explicitly;
`str.lower` is modelled by `pyLower` (ASCII case folding) and string
comparison by `pyStrLt`/`pyStrLe` (code-point lexicographic).
A Python exception that escapes the resolver (not caught by its
`except` clauses) is modelled by the `Except.error` branch.
-/

namespace RHStore

/-- JSON values as produced by the metadata generator. -/
inductive JsonVal where
  | null
  | str (s : String)
  | num (n : Int)
  | bool (b : Bool)
  | arr (elems : List JsonVal)
  | obj (fields : List (String × JsonVal))

/-- A record / parsed JSON object: an insertion-ordered association list,
mirroring a Python `dict` (keys distinct). -/
abbrev Record := List (String × JsonVal)

/-- Lexicographic strict comparison of character lists by code point,
the order Python uses for `str` comparison. -/
def charListLt : List Char → List Char → Bool
  | [], [] => false
  | [], _ :: _ => true
  | _ :: _, [] => false
  | a :: as, b :: bs =>
      if a.val < b.val then true
      else if b.val < a.val then false
      else charListLt as bs

/-- Python `a < b` on strings. -/
def pyStrLt (a b : String) : Bool := charListLt a.data b.data

/-- Python `a <= b` on strings (total order, so `a <= b ↔ ¬ b < a`). -/
def pyStrLe (a b : String) : Bool := !(pyStrLt b a)

/-- Python `str.lower`, modelled as ASCII case folding per character. -/
def pyLower (s : String) : String := ⟨s.data.map Char.toLower⟩

/-- Strict ascending order of adjacent elements under `pyStrLt`
(code-point lexicographic), i.e. the list is strictly sorted. -/
def strictAscending : List String → Bool
  | [] => true
  | [_] => true
  | a :: b :: rest => pyStrLt a b && strictAscending (b :: rest)

/-- Python truthiness of a string: the empty string is falsy. -/
def strTruthy (s : String) : Bool := s ≠ ""

/-- Python truthiness of `str | None`: `None` and `""` are falsy. -/
def optStrTruthy : Option String → Bool
  | none => false
  | some s => strTruthy s

/-- Serialize `str | None` into a JSON value (`None` becomes `null`). -/
def optStrJson : Option String → JsonVal
  | none => .null
  | some s => .str s

/-- `dict.get(k)` on a parsed JSON object. -/
def jget (m : Record) (k : String) : Option JsonVal :=
  (m.find? (fun p => p.1 == k)).map (·.2)

/-- Python equality of a JSON value against a `str`: true exactly when
the value is that string (`None != s`, numbers and other shapes compare
unequal to strings). -/
def isStrVal (v : Option JsonVal) (d : String) : Bool :=
  match v with
  | some (.str s) => s == d
  | _ => false

/-- One entry returned by the contents (directory listing) endpoint. -/
structure DirEntry where
  name : String
  type : String
deriving DecidableEq, Repr

/-- One release returned by the releases listing endpoint.  Creation
time is modelled as a natural number (only its order matters). -/
structure Release where
  tag_name : String
  prerelease : Bool
  created_at : Nat
deriving DecidableEq, Repr

/-- The repository metadata returned by `github.repos.get`. -/
structure RepoData where
  archived : Bool
  full_name : String
  updated_at : String
  open_issues_count : Int
  stargazers_count : Int
  topics : List String
  id : Nat
deriving DecidableEq, Repr

/-- Outcome of one GitHub API call: data plus optional etag, a
`GitHubNotFoundException`, or any other `GitHubException`. -/
inductive GHResult (α : Type) where
  | ok (data : α) (etag : Option String)
  | notFound
  | otherError
deriving DecidableEq, Repr

/-- The behaviour of the GitHub client towards one resolver task: the
response to each of the five calls the task can make, in call order,
plus the timestamp `datetime.now` returns at record build time.
`manifestFile` carries the parsed manifest (`none` models a JSON decode
failure of the fetched file content). -/
structure RepoEnv where
  getRepo : GHResult RepoData
  rootContents : GHResult (List DirEntry)
  pluginsContents : GHResult (List DirEntry)
  manifestFile : GHResult (Option Record)
  releasesList : GHResult (List Release)
  now : String

/-- `RotorHazardPlugin.get_plugin_domain`: find the `custom_plugins`
directory at the root, then require exactly one subdirectory inside it;
its name is the domain.  All GitHub errors are caught and yield `none`
(the function falls through returning Python `None`). -/
def get_plugin_domain (env : RepoEnv) : Option String :=
  match env.rootContents with
  | .ok items _ =>
      match items.find? (fun it => it.name == "custom_plugins" && it.type == "dir") with
      | none => none
      | some _ =>
          match env.pluginsContents with
          | .ok folderItems _ =>
              match folderItems.filter (fun it => it.type == "dir") with
              | [f] => some f.name
              | _ => none
          | .notFound => none
          | .otherError => none
  | .notFound => none
  | .otherError => none

/-- `RotorHazardPlugin.validate_domain_manifest`: fetch
`custom_plugins/<domain>/manifest.json`, parse it, and require its
`domain` field to equal the folder name.  Returns the validation verdict
together with the `manifest_data` attribute as the code leaves it (it is
assigned before the comparison, so it is set even on a mismatch). -/
def validate_domain_manifest (env : RepoEnv) (domain : Option String) :
    Bool × Record :=
  if optStrTruthy domain then
    match env.manifestFile with
    | .ok (some manifest) _ =>
        if isStrVal (jget manifest "domain") (domain.getD "") then (true, manifest)
        else (false, manifest)
    | .ok none _ => (false, [])
    | .notFound => (false, [])
    | .otherError => (false, [])
  else (false, [])

/-- Stable descending sort by creation time, as Python
`sorted(data, key=lambda r: r.created_at, reverse=True)`. -/
def sortReleasesDesc (rs : List Release) : List Release :=
  List.insertionSort (fun a b => b.created_at ≤ a.created_at) rs

/-- `RotorHazardPlugin.fetch_releases`.  Returns the Python return value
(`none` models the function returning `None` after an exception was
caught and logged) together with the `etag_release` attribute it leaves
behind. -/
def fetch_releases (env : RepoEnv) :
    Option (Option String × Option String) × Option String :=
  match env.releasesList with
  | .ok data etag =>
      let etagRel := if optStrTruthy etag then etag else none
      if data.isEmpty then (some (none, none), etagRel)
      else
        let sortedReleases := sortReleasesDesc data
        let latest_release :=
          (sortedReleases.find? (fun r => !r.prerelease)).map (·.tag_name)
        let latest_prerelease :=
          (sortedReleases.find? (fun r => r.prerelease)).map (·.tag_name)
        (some (latest_release, latest_prerelease), etagRel)
  | .notFound => (none, none)
  | .otherError => (none, none)

/-- Ascending stable sort of record items by key, as Python
`dict(sorted(metadata.items()))` (keys are distinct, so comparison
never reaches the values). -/
def sortByKey (m : Record) : Record :=
  List.insertionSort (fun a b => pyStrLe a.1 b.1 = true) m

/-- A Python exception escaping the resolver uncaught. -/
inductive PyError where
  | typeError
deriving DecidableEq, Repr

/-- Return value of `RotorHazardPlugin.fetch_metadata`:
`{repo_id: metadata}` on success, the string `"archived"`, or `None`. -/
inductive FetchOutcome where
  | archivedRepo
  | skipped
  | valid (repoId : Nat) (metadata : Record)

/-- Assembly of `self.metadata` in `fetch_metadata`: the base dict in
literal order, `last_prerelease` appended when truthy, items sorted by
key, then `manifest` and `domain` prepended. -/
def buildRecord (repo1 : String) (d : String) (manifest : Record)
    (etagRepository etagRel : Option String)
    (lv lp : Option String) (now : String) (rd : RepoData) : Record :=
  let base : Record :=
    [("etag_release", optStrJson etagRel),
     ("etag_repository", optStrJson etagRepository),
     ("last_fetched", .str now),
     ("last_updated", .str rd.updated_at),
     ("last_version", optStrJson lv),
     ("open_issues", .num rd.open_issues_count),
     ("repository", .str repo1),
     ("stargazers_count", .num rd.stargazers_count),
     ("topics", .arr (rd.topics.map .str))]
  let base1 : Record :=
    match lp with
    | some s => if strTruthy s then base ++ [("last_prerelease", .str s)] else base
    | none => base
  let manifestObj : JsonVal :=
    .obj ([("name", (jget manifest "name").getD .null),
           ("description", (jget manifest "description").getD .null)]
      ++ (match jget manifest "zip_release" with
          | some v => [("zip_release", v)]
          | none => [])
      ++ (match jget manifest "zip_filename" with
          | some v => [("zip_filename", v)]
          | none => []))
  ("manifest", manifestObj) :: ("domain", .str d) :: sortByKey base1

/-- `RotorHazardPlugin.fetch_metadata` for input identifier `repo` under
client behaviour `env`.  The `except` clauses catch only
`GitHubNotFoundException` and `GitHubException`; when `fetch_releases`
returns `None` the tuple unpacking at its call site raises an uncaught
`TypeError`, modelled by `Except.error`. -/
def fetch_metadata (repo : String) (env : RepoEnv) :
    Except PyError FetchOutcome :=
  match env.getRepo with
  | .notFound => .ok .skipped
  | .otherError => .ok .skipped
  | .ok rd etagRepo0 =>
      if rd.archived then .ok .archivedRepo
      else
        let repo1 :=
          if pyLower rd.full_name ≠ pyLower repo then rd.full_name else repo
        match get_plugin_domain env with
        | none => .ok .skipped
        | some d =>
            if d = "" then .ok .skipped
            else
              let vd := validate_domain_manifest env (some d)
              if !vd.1 then .ok .skipped
              else
                let etagRepository :=
                  if optStrTruthy etagRepo0 then etagRepo0 else none
                match fetch_releases env with
                | (none, _) => .error .typeError
                | (some (lv, lp), etagRel) =>
                    .ok (.valid rd.id
                      (buildRecord repo1 d vd.2 etagRepository etagRel lv lp
                        env.now rd))

/-! ### Batch aggregator (`MetadataGenerator.generate_metadata`) -/

/-- `COMPARE_IGNORE`: keys stripped from records for the diff baseline. -/
def COMPARE_IGNORE : List String := ["last_fetched", "etag_release", "etag_repository"]

/-- Python `dict` assignment `d[k] = v`: replace in place when the key
exists, otherwise append. -/
def dictInsert (k : Nat) (v : Record) : List (Nat × Record) → List (Nat × Record)
  | [] => [(k, v)]
  | (k', v') :: rest =>
      if k' = k then (k, v) :: rest else (k', v') :: dictInsert k v rest

/-- Python `d[k]` lookup on the id-keyed mapping. -/
def dictLookup (k : Nat) : List (Nat × Record) → Option Record
  | [] => none
  | (k', v') :: rest => if k' = k then some v' else dictLookup k rest

/-- `metadata["repository"]` on a resolver-built record (always a
string key present in every valid record). -/
def recRepository (md : Record) : String :=
  match jget md "repository" with
  | some (.str s) => s
  | _ => ""

/-- Mutable state of the sequential reduction loop. -/
structure AggState where
  plugin_data : List (Nat × Record)
  valid_repositories : List String
  skipped_plugins : Nat
  archived_plugins : Nat
  renamed_plugins : Nat

def initState : AggState :=
  { plugin_data := [], valid_repositories := [], skipped_plugins := 0,
    archived_plugins := 0, renamed_plugins := 0 }

/-- One iteration of the reduction loop over `results`.  A valid result
is inserted into the id-keyed mapping and its repository string appended
to the valid list; the rename check compares that string against the
input entry at `valid_repositories.index(string)` (first occurrence in
the list just appended to). -/
def aggStep (repos : List String) (st : AggState) (r : FetchOutcome) : AggState :=
  match r with
  | .archivedRepo => { st with archived_plugins := st.archived_plugins + 1 }
  | .valid repoId metadata =>
      let s := recRepository metadata
      let vr := st.valid_repositories ++ [s]
      let renamed' :=
        if s ≠ repos.getD (vr.indexOf s) "" then st.renamed_plugins + 1
        else st.renamed_plugins
      { st with
          plugin_data := dictInsert repoId metadata st.plugin_data,
          valid_repositories := vr,
          renamed_plugins := renamed' }
  | .skipped => { st with skipped_plugins := st.skipped_plugins + 1 }

/-- The summary record written to `summary.json` (wall-clock time
omitted: not modelled). -/
structure Summary where
  total_plugins : Nat
  valid_plugins : Nat
  archived_plugins : Nat
  renamed_plugins : Nat
  skipped_plugins : Nat
deriving DecidableEq, Repr

/-- The four artifacts of one completed run: `data.json`,
`diff/after.json`, `repositories.json` and `summary.json`. -/
structure Artifacts where
  dataJson : List (Nat × Record)
  afterJson : List (Nat × Record)
  repositoriesJson : List String
  summary : Summary

/-- `MetadataGenerator.save_filtered_json`: drop the `COMPARE_IGNORE`
keys from every record. -/
def save_filtered_json (data : List (Nat × Record)) : List (Nat × Record) :=
  data.map (fun p => (p.1, p.2.filter (fun q => !(COMPARE_IGNORE.contains q.1))))

/-- Error component of a gathered task result. -/
def errOf : Except PyError FetchOutcome → Option PyError
  | .error e => some e
  | .ok _ => none

/-- Value component of a gathered task result. -/
def okOf : Except PyError FetchOutcome → Option FetchOutcome
  | .ok o => some o
  | .error _ => none

/-- The gathered per-repository results, in input order (`asyncio.gather`
preserves argument order). -/
def batchResults (envs : List (String × RepoEnv)) :
    List (Except PyError FetchOutcome) :=
  envs.map (fun p => fetch_metadata p.1 p.2)

/-- The first uncaught resolver exception of the batch, if any
(`gather` re-raises it when awaited). -/
def firstError (envs : List (String × RepoEnv)) : Option PyError :=
  (batchResults envs).findSome? errOf

/-- The completed outcomes consumed by the reduction loop. -/
def batchOutcomes (envs : List (String × RepoEnv)) : List FetchOutcome :=
  (batchResults envs).filterMap okOf

/-- Final reduction state of a run. -/
def aggFinal (envs : List (String × RepoEnv)) : AggState :=
  (batchOutcomes envs).foldl (aggStep (envs.map (·.1))) initState

/-- The four artifacts a completed run writes. -/
def mkArtifacts (envs : List (String × RepoEnv)) : Artifacts :=
  { dataJson := (aggFinal envs).plugin_data,
    afterJson := save_filtered_json (aggFinal envs).plugin_data,
    repositoriesJson := (aggFinal envs).valid_repositories,
    summary :=
      { total_plugins := (envs.map (·.1)).length,
        valid_plugins := (aggFinal envs).valid_repositories.length,
        archived_plugins := (aggFinal envs).archived_plugins,
        renamed_plugins := (aggFinal envs).renamed_plugins,
        skipped_plugins := (aggFinal envs).skipped_plugins } }

/-- `MetadataGenerator.generate_metadata` over input list plus client
behaviour per entry.  `asyncio.gather` completes all tasks and then
re-raises the exception of a failed task, so a single uncaught resolver
exception aborts the run before any artifact is written. -/
def generate_metadata (envs : List (String × RepoEnv)) :
    Except PyError Artifacts :=
  match firstError envs with
  | some e => .error e
  | none => .ok (mkArtifacts envs)

/-! ### Concrete client behaviours used in witnesses and counterexamples -/

/-- A root listing holding a `custom_plugins` directory. -/
def rootOk : List DirEntry := [⟨"custom_plugins", "dir"⟩, ⟨"README.md", "file"⟩]

/-- A `custom_plugins/` listing with exactly one domain folder. -/
def pluginsOk (d : String) : List DirEntry := [⟨d, "dir"⟩, ⟨"notes.txt", "file"⟩]

/-- A manifest whose `domain` matches the folder `d`. -/
def manifestOk (d : String) : Record :=
  [("domain", .str d), ("name", .str "Test Plugin"), ("description", .str "A plugin")]

def repoDataOk (fullName : String) (id : Nat) : RepoData :=
  { archived := false, full_name := fullName, updated_at := "2026-01-01T00:00:00Z",
    open_issues_count := 2, stargazers_count := 5, topics := ["rotorhazard"], id := id }

/-- The release list of the spec's worked example. -/
def releasesEx : List Release :=
  [⟨"v2", false, 2⟩, ⟨"v3-rc", true, 3⟩, ⟨"v1", false, 1⟩]

/-- A behaviour under which every resolution step succeeds. -/
def envValid (fullName : String) (id : Nat) (d : String) (rel : List Release) : RepoEnv :=
  { getRepo := .ok (repoDataOk fullName id) (some "W/repo-etag"),
    rootContents := .ok rootOk none,
    pluginsContents := .ok (pluginsOk d) none,
    manifestFile := .ok (some (manifestOk d)) none,
    releasesList := .ok rel (some "W/rel-etag"),
    now := "2026-10-12T00:00:00+00:00" }

/-- A behaviour whose releases listing fails with `NotFound` while every
earlier step succeeds. -/
def envRelNotFound (fullName : String) (id : Nat) (d : String) : RepoEnv :=
  { envValid fullName id d [] with releasesList := .notFound }

/-- A behaviour whose releases listing fails with a non-`NotFound`
`GitHubException` while every earlier step succeeds. -/
def envRelOtherError (fullName : String) (id : Nat) (d : String) : RepoEnv :=
  { envValid fullName id d [] with releasesList := .otherError }

/-- A behaviour where the repository itself is gone (`NotFound`). -/
def envRepoGone : RepoEnv :=
  { getRepo := .notFound, rootContents := .notFound, pluginsContents := .notFound,
    manifestFile := .notFound, releasesList := .notFound, now := "t" }

/-- A behaviour reporting the repository archived. -/
def envArchived (fullName : String) (id : Nat) : RepoEnv :=
  { envValid fullName id "dom" [] with
      getRepo := .ok { repoDataOk fullName id with archived := true } none }

/-! ### Derived notions used in the statements -/

/-- Classification predicates on completed outcomes. -/
def isValidOutcome : FetchOutcome → Bool
  | .valid _ _ => true
  | _ => false

def isArchivedOutcome : FetchOutcome → Bool
  | .archivedRepo => true
  | _ => false

def isSkippedOutcome : FetchOutcome → Bool
  | .skipped => true
  | _ => false

/-- The `(repo_id, metadata)` pairs of the valid outcomes, in order. -/
def validPairs (outs : List FetchOutcome) : List (Nat × Record) :=
  outs.filterMap (fun o =>
    match o with
    | .valid i md => some (i, md)
    | _ => none)

/-- Number of positions (starting at offset `n`) whose resolved string
differs from the input entry at the same position. -/
def countMismatch (repos : List String) : Nat → List String → Nat
  | _, [] => 0
  | n, s :: ss =>
      (if s ≠ repos.getD n "" then 1 else 0) + countMismatch repos (n + 1) ss

/-- Extract the record of a valid resolution (empty record otherwise);
used to state concrete witnesses. -/
def wMdOf (repo : String) (env : RepoEnv) : Record :=
  match fetch_metadata repo env with
  | .ok (.valid _ md) => md
  | _ => []

/-- Extract the artifacts of a completed run (empty artifacts
otherwise); used to state concrete witnesses. -/
def wArtOf (envs : List (String × RepoEnv)) : Artifacts :=
  match generate_metadata envs with
  | .ok art => art
  | .error _ => ⟨[], [], [], ⟨0, 0, 0, 0, 0⟩⟩

/-- A batch whose two valid inputs resolve to the same numeric id. -/
def wEnvsDup : List (String × RepoEnv) :=
  [("d/one", envValid "d/one" 31 "dup_plugin" []),
   ("d/two", envValid "d/two" 31 "dup_plugin" [])]

/-- A batch with one genuinely renamed valid repository and one
unrenamed one. -/
def wEnvsRenamed : List (String × RepoEnv) :=
  [("r/old", envValid "r/new" 41 "ren_plugin" []),
   ("r/same", envValid "r/same" 42 "ren_plugin" [])]

/-- A mixed batch (one archived, one missing, one fully valid) used by
witnesses. -/
def wEnvsMixed : List (String × RepoEnv) :=
  [("w/arch", envArchived "w/arch" 21),
   ("w/gone", envRepoGone),
   ("w/good", envValid "w/good" 22 "good_plugin" releasesEx)]

/-! ### Resolver lemmas -/

/-- Inversion of a successful resolution: a `valid` outcome pins down
every step of the sequence and the shape of the emitted record. -/
theorem fetch_metadata_valid_inv {repo : String} {env : RepoEnv} {i : Nat}
    {md : Record} (h : fetch_metadata repo env = .ok (.valid i md)) :
    ∃ rd etg d lv lp etagRel,
      env.getRepo = .ok rd etg ∧ rd.archived = false ∧
      get_plugin_domain env = some d ∧ d ≠ "" ∧
      (validate_domain_manifest env (some d)).1 = true ∧
      fetch_releases env = (some (lv, lp), etagRel) ∧
      i = rd.id ∧
      md = buildRecord
             (if pyLower rd.full_name ≠ pyLower repo then rd.full_name else repo)
             d (validate_domain_manifest env (some d)).2
             (if optStrTruthy etg then etg else none) etagRel lv lp env.now rd := by
  unfold fetch_metadata at h
  cases hget : env.getRepo with
  | notFound => rw [hget] at h; simp at h
  | otherError => rw [hget] at h; simp at h
  | ok rd etg =>
      rw [hget] at h
      simp only at h
      cases harch : rd.archived with
      | true => rw [harch] at h; simp at h
      | false =>
          rw [harch] at h
          simp only [Bool.false_eq_true, if_false] at h
          cases hdom : get_plugin_domain env with
          | none => rw [hdom] at h; simp at h
          | some d =>
              rw [hdom] at h
              simp only at h
              by_cases hde : d = ""
              · rw [if_pos hde] at h; simp at h
              · rw [if_neg hde] at h
                cases hvd : (validate_domain_manifest env (some d)).1 with
                | false => rw [hvd] at h; simp at h
                | true =>
                    rw [hvd] at h
                    simp only [Bool.not_true, Bool.false_eq_true, if_false] at h
                    cases hrel : fetch_releases env with
                    | mk fst etagRel =>
                        rw [hrel] at h
                        cases fst with
                        | none => simp at h
                        | some pr =>
                            cases pr with
                            | mk lv lp =>
                                simp only [Except.ok.injEq,
                                  FetchOutcome.valid.injEq] at h
                                obtain ⟨h1, h2⟩ := h
                                subst h1
                                subst h2
                                exact ⟨rd, etg, d, lv, lp, etagRel, rfl, harch,
                                  rfl, hde, hvd, rfl, rfl, rfl⟩

/-- Inversion of a successful `validate_domain_manifest`: the manifest
was fetched, parsed, and declares `domain` equal to the folder name. -/
theorem validate_true_inv {env : RepoEnv} {dom : Option String}
    (h : (validate_domain_manifest env dom).1 = true) :
    ∃ m etg, env.manifestFile = .ok (some m) etg ∧
      isStrVal (jget m "domain") (dom.getD "") = true ∧
      (validate_domain_manifest env dom).2 = m := by
  unfold validate_domain_manifest at h
  split at h
  · split at h
    · split at h
      · rename_i m etag heq hcmp
        exact ⟨m, etag, heq, hcmp, by simp [validate_domain_manifest, *]⟩
      · simp at h
    · simp at h
    · simp at h
    · simp at h
  · simp at h

/-- Key list of an assembled record when no (truthy) prerelease tag is
present. -/
theorem buildRecord_keys_noPre (repo1 d : String) (manifest : Record)
    (etagRepository etagRel lv lp : Option String) (now : String) (rd : RepoData)
    (hlp : optStrTruthy lp = false) :
    (buildRecord repo1 d manifest etagRepository etagRel lv lp now rd).map Prod.fst =
      ["manifest", "domain", "etag_release", "etag_repository", "last_fetched",
       "last_updated", "last_version", "open_issues", "repository",
       "stargazers_count", "topics"] := by
  cases lp with
  | none => rfl
  | some s =>
      simp only [optStrTruthy] at hlp
      unfold buildRecord
      simp only [hlp]
      rfl

/-- Key list of an assembled record when a truthy prerelease tag is
present: `last_prerelease` is sorted into place. -/
theorem buildRecord_keys_pre (repo1 d : String) (manifest : Record)
    (etagRepository etagRel lv : Option String) (now : String) (rd : RepoData)
    (s : String) (hs : strTruthy s = true) :
    (buildRecord repo1 d manifest etagRepository etagRel lv (some s) now rd).map Prod.fst =
      ["manifest", "domain", "etag_release", "etag_repository", "last_fetched",
       "last_prerelease", "last_updated", "last_version", "open_issues",
       "repository", "stargazers_count", "topics"] := by
  unfold buildRecord
  simp only [hs]
  rfl

/-- The assembled record's `domain` field is the discovered folder name. -/
theorem buildRecord_jget_domain (repo1 d : String) (manifest : Record)
    (etagRepository etagRel lv lp : Option String) (now : String) (rd : RepoData) :
    jget (buildRecord repo1 d manifest etagRepository etagRel lv lp now rd) "domain" =
      some (.str d) := rfl

/-- The assembled record's `repository` field is the working identifier
at assembly time. -/
theorem buildRecord_jget_repository (repo1 d : String) (manifest : Record)
    (etagRepository etagRel lv lp : Option String) (now : String) (rd : RepoData) :
    jget (buildRecord repo1 d manifest etagRepository etagRel lv lp now rd) "repository" =
      some (.str repo1) := by
  cases lp with
  | none => rfl
  | some s =>
      cases hs : strTruthy s with
      | false => unfold buildRecord; simp only [hs]; rfl
      | true => unfold buildRecord; simp only [hs]; rfl

/-! ### Aggregator lemmas -/

/-- Inversion of a completed run: the artifacts are the ones assembled
from the reduction state, and no resolver exception occurred. -/
theorem generate_ok_inv {envs : List (String × RepoEnv)} {art : Artifacts}
    (h : generate_metadata envs = .ok art) :
    art = mkArtifacts envs ∧ firstError envs = none := by
  unfold generate_metadata at h
  cases hfe : firstError envs with
  | some e => rw [hfe] at h; simp at h
  | none => rw [hfe] at h; simp only [Except.ok.injEq] at h; exact ⟨h.symm, rfl⟩

/-- The reduction loop adds one archived count per archived outcome. -/
theorem aggFoldl_archived (outs : List FetchOutcome) (repos : List String)
    (st : AggState) :
    (outs.foldl (aggStep repos) st).archived_plugins =
      st.archived_plugins + outs.countP isArchivedOutcome := by
  induction outs generalizing st with
  | nil => simp
  | cons o rest ih =>
      cases o with
      | archivedRepo =>
          simp [aggStep, ih, List.countP_cons, isArchivedOutcome]
          omega
      | skipped => simp [aggStep, ih, List.countP_cons, isArchivedOutcome]
      | valid i md => simp [aggStep, ih, List.countP_cons, isArchivedOutcome]

/-- The reduction loop adds one skipped count per skipped outcome. -/
theorem aggFoldl_skipped (outs : List FetchOutcome) (repos : List String)
    (st : AggState) :
    (outs.foldl (aggStep repos) st).skipped_plugins =
      st.skipped_plugins + outs.countP isSkippedOutcome := by
  induction outs generalizing st with
  | nil => simp
  | cons o rest ih =>
      cases o with
      | archivedRepo => simp [aggStep, ih, List.countP_cons, isSkippedOutcome]
      | skipped =>
          simp [aggStep, ih, List.countP_cons, isSkippedOutcome]
          omega
      | valid i md => simp [aggStep, ih, List.countP_cons, isSkippedOutcome]

/-- Only valid outcomes contribute to the valid-repositories list, in
order. -/
theorem aggFoldl_vr (outs : List FetchOutcome) (repos : List String)
    (st : AggState) :
    (outs.foldl (aggStep repos) st).valid_repositories =
      st.valid_repositories ++ (validPairs outs).map (fun p => recRepository p.2) := by
  induction outs generalizing st with
  | nil => simp [validPairs]
  | cons o rest ih =>
      simp only [validPairs] at ih ⊢
      cases o with
      | archivedRepo => simp [aggStep, ih, List.filterMap_cons]
      | skipped => simp [aggStep, ih, List.filterMap_cons]
      | valid i md => simp [aggStep, ih, List.filterMap_cons]

/-- Only valid outcomes contribute to the id-keyed mapping, by repeated
dict assignment. -/
theorem aggFoldl_pd (outs : List FetchOutcome) (repos : List String)
    (st : AggState) :
    (outs.foldl (aggStep repos) st).plugin_data =
      (validPairs outs).foldl (fun d p => dictInsert p.1 p.2 d) st.plugin_data := by
  induction outs generalizing st with
  | nil => simp [validPairs]
  | cons o rest ih =>
      simp only [validPairs] at ih ⊢
      cases o with
      | archivedRepo => simp [aggStep, ih, List.filterMap_cons]
      | skipped => simp [aggStep, ih, List.filterMap_cons]
      | valid i md => simp [aggStep, ih, List.filterMap_cons]

/-- Every completed outcome is classified into exactly one bucket. -/
theorem outcome_partition (outs : List FetchOutcome) :
    outs.countP isValidOutcome + outs.countP isArchivedOutcome +
      outs.countP isSkippedOutcome = outs.length := by
  induction outs with
  | nil => simp
  | cons o rest ih =>
      cases o <;>
        simp [List.countP_cons, isValidOutcome, isArchivedOutcome,
          isSkippedOutcome] <;> omega

/-- One `(id, record)` pair per valid outcome. -/
theorem validPairs_length (outs : List FetchOutcome) :
    (validPairs outs).length = outs.countP isValidOutcome := by
  induction outs with
  | nil => simp [validPairs]
  | cons o rest ih =>
      simp only [validPairs] at ih ⊢
      cases o <;>
        simp [List.filterMap_cons, List.countP_cons, isValidOutcome, ih]

/-- When no task failed, there is one completed outcome per result. -/
theorem okLength_aux (rs : List (Except PyError FetchOutcome))
    (h : ∀ r ∈ rs, errOf r = none) :
    (rs.filterMap okOf).length = rs.length := by
  induction rs with
  | nil => simp
  | cons r rest ih =>
      cases r with
      | error e => exact absurd (h _ (List.mem_cons_self _ _)) (by simp [errOf])
      | ok o =>
          simp only [List.filterMap_cons, okOf, List.length_cons]
          rw [ih (fun r hr => h r (List.mem_cons_of_mem _ hr))]

/-- A run with no uncaught exception reduces one outcome per input. -/
theorem noError_length {envs : List (String × RepoEnv)}
    (h : firstError envs = none) :
    (batchOutcomes envs).length = envs.length := by
  unfold firstError at h
  rw [List.findSome?_eq_none_iff] at h
  unfold batchOutcomes
  rw [okLength_aux _ h]
  simp [batchResults]

/-- Dict assignment replaces in place or appends the key at the end. -/
theorem dictInsert_keys (k : Nat) (v : Record) (d : List (Nat × Record)) :
    (dictInsert k v d).map Prod.fst =
      if k ∈ d.map Prod.fst then d.map Prod.fst else d.map Prod.fst ++ [k] := by
  induction d with
  | nil => simp [dictInsert]
  | cons p rest ih =>
      obtain ⟨k', v'⟩ := p
      by_cases hk : k' = k
      · subst hk
        simp [dictInsert]
      · simp only [dictInsert, hk, if_false, List.map_cons]
        rw [ih]
        by_cases hmem : k ∈ rest.map Prod.fst
        · simp [hmem, hk, Ne.symm hk]
        · simp [hmem, hk, Ne.symm hk]

/-- Dict assignment preserves key distinctness. -/
theorem dictInsert_keys_nodup {k : Nat} {v : Record} {d : List (Nat × Record)}
    (hd : (d.map Prod.fst).Nodup) :
    ((dictInsert k v d).map Prod.fst).Nodup := by
  rw [dictInsert_keys]
  by_cases hmem : k ∈ d.map Prod.fst
  · simpa [hmem] using hd
  · simp only [hmem, if_false]
    simp [List.nodup_append, hd, hmem]

/-- Key membership after one dict assignment. -/
theorem dictInsert_mem_keys {x k : Nat} {v : Record} {d : List (Nat × Record)} :
    x ∈ (dictInsert k v d).map Prod.fst ↔ x ∈ d.map Prod.fst ∨ x = k := by
  rw [dictInsert_keys]
  by_cases hmem : k ∈ d.map Prod.fst
  · simp only [hmem, if_true]
    constructor
    · exact Or.inl
    · rintro (hx | rfl)
      · exact hx
      · exact hmem
  · simp [hmem]

/-- The id-keyed mapping always has distinct keys. -/
theorem dictFoldl_keys_nodup (xs : List (Nat × Record)) (d : List (Nat × Record))
    (hd : (d.map Prod.fst).Nodup) :
    (((xs.foldl (fun acc p => dictInsert p.1 p.2 acc) d)).map Prod.fst).Nodup := by
  induction xs generalizing d with
  | nil => simpa using hd
  | cons x rest ih => exact ih _ (dictInsert_keys_nodup hd)

/-- Key membership after a sequence of dict assignments. -/
theorem dictFoldl_mem_keys (xs : List (Nat × Record)) (d : List (Nat × Record))
    (x : Nat) :
    x ∈ ((xs.foldl (fun acc p => dictInsert p.1 p.2 acc) d)).map Prod.fst ↔
      x ∈ d.map Prod.fst ∨ x ∈ xs.map Prod.fst := by
  induction xs generalizing d with
  | nil => simp
  | cons q rest ih =>
      simp only [List.foldl_cons, List.map_cons, List.mem_cons]
      rw [ih _, dictInsert_mem_keys]
      tauto

/-- The mapping has one entry per distinct inserted key. -/
theorem dictFoldl_keys_length (xs : List (Nat × Record)) :
    ((xs.foldl (fun acc p => dictInsert p.1 p.2 acc) []).map Prod.fst).length =
      (xs.map Prod.fst).dedup.length := by
  have h1 : (((xs.foldl (fun acc p => dictInsert p.1 p.2 acc) [])).map Prod.fst).Nodup :=
    dictFoldl_keys_nodup xs [] (by simp)
  have h2 : ∀ x, x ∈ ((xs.foldl (fun acc p => dictInsert p.1 p.2 acc) [])).map Prod.fst ↔
      x ∈ (xs.map Prod.fst).dedup := by
    intro x
    rw [dictFoldl_mem_keys, List.mem_dedup]
    simp
  exact ((List.perm_ext_iff_of_nodup h1 (List.nodup_dedup _)).2 h2).length_eq

/-- Lookup after one dict assignment. -/
theorem dictLookup_insert (k kk : Nat) (v : Record) (d : List (Nat × Record)) :
    dictLookup k (dictInsert kk v d) = if kk = k then some v else dictLookup k d := by
  induction d with
  | nil => by_cases h : kk = k <;> simp [dictInsert, dictLookup, h]
  | cons p rest ih =>
      obtain ⟨k', v'⟩ := p
      by_cases h1 : k' = kk
      · subst h1
        by_cases h2 : k' = k <;> simp [dictInsert, dictLookup, h2]
      · by_cases h2 : kk = k
        · subst h2
          simp [dictInsert, dictLookup, h1, ih]
        · by_cases h3 : k' = k <;>
            simp [dictInsert, dictLookup, h1, h2, h3, ih, Ne.symm h2]

/-- Lookup in the built mapping returns the value of the last
assignment with that key. -/
theorem dictFoldl_lookup (xs : List (Nat × Record)) (d : List (Nat × Record))
    (k : Nat) :
    dictLookup k (xs.foldl (fun acc p => dictInsert p.1 p.2 acc) d) =
      ((xs.reverse.find? (fun p => p.1 == k)).map Prod.snd).or (dictLookup k d) := by
  induction xs generalizing d with
  | nil => simp
  | cons x rest ih =>
      simp only [List.foldl_cons, List.reverse_cons]
      rw [ih]
      cases hfind : rest.reverse.find? (fun p => p.1 == k) with
      | some q => simp [List.find?_append, hfind]
      | none =>
          simp only [List.find?_append, hfind, Option.none_or]
          rw [dictLookup_insert]
          by_cases hk : x.1 = k
          · simp [List.find?_cons, hk]
          · simp [List.find?_cons, hk]

/-- Every entry after a dict assignment is the assigned pair or an
existing entry. -/
theorem mem_dictInsert_pair {q : Nat × Record} {k : Nat} {v : Record}
    {d : List (Nat × Record)} (h : q ∈ dictInsert k v d) :
    q = (k, v) ∨ q ∈ d := by
  induction d with
  | nil =>
      simp only [dictInsert, List.mem_singleton] at h
      exact Or.inl h
  | cons p rest ih =>
      obtain ⟨k', v'⟩ := p
      by_cases hk : k' = k
      · subst hk
        simp only [dictInsert, if_true, eq_self_iff_true, List.mem_cons] at h
        rcases h with h1 | h2
        · exact Or.inl h1
        · exact Or.inr (List.mem_cons_of_mem _ h2)
      · simp only [dictInsert, hk, if_false, List.mem_cons] at h
        rcases h with h1 | h2
        · exact Or.inr (by rw [h1]; exact List.mem_cons_self _ _)
        · rcases ih h2 with h3 | h3
          · exact Or.inl h3
          · exact Or.inr (List.mem_cons_of_mem _ h3)

/-- Every entry of the built mapping is an inserted pair. -/
theorem mem_dictFoldl_pair {q : Nat × Record} (xs : List (Nat × Record))
    (d : List (Nat × Record))
    (h : q ∈ xs.foldl (fun acc p => dictInsert p.1 p.2 acc) d) :
    q ∈ d ∨ q ∈ xs := by
  induction xs generalizing d with
  | nil => exact Or.inl (by simpa using h)
  | cons x rest ih =>
      simp only [List.foldl_cons] at h
      rcases ih _ h with h2 | h2
      · rcases mem_dictInsert_pair h2 with h3 | h3
        · exact Or.inr (by simp [h3])
        · exact Or.inl h3
      · exact Or.inr (List.mem_cons_of_mem _ h2)

/-- A valid pair comes from a valid outcome of the batch. -/
theorem validPairs_mem {outs : List FetchOutcome} {p : Nat × Record}
    (h : p ∈ validPairs outs) :
    FetchOutcome.valid p.1 p.2 ∈ outs := by
  unfold validPairs at h
  rw [List.mem_filterMap] at h
  obtain ⟨o, ho, heq⟩ := h
  cases o with
  | valid i md =>
      simp only [Option.some.injEq] at heq
      subst heq
      exact ho
  | archivedRepo => simp at heq
  | skipped => simp at heq

/-- Every completed outcome is the result of some input's resolution. -/
theorem batchOutcomes_mem {envs : List (String × RepoEnv)} {o : FetchOutcome}
    (h : o ∈ batchOutcomes envs) :
    ∃ q ∈ envs, fetch_metadata q.1 q.2 = .ok o := by
  unfold batchOutcomes batchResults at h
  rw [List.mem_filterMap] at h
  obtain ⟨r, hr, heq⟩ := h
  rw [List.mem_map] at hr
  obtain ⟨q, hq, hqr⟩ := hr
  cases r with
  | ok o' =>
      simp only [okOf, Option.some.injEq] at heq
      subst heq
      exact ⟨q, hq, hqr⟩
  | error e => simp [okOf] at heq

/-- Every valid record carries the three run-volatile keys. -/
theorem valid_record_volatile_keys {repo : String} {env : RepoEnv} {i : Nat}
    {md : Record} (h : fetch_metadata repo env = .ok (.valid i md)) :
    "last_fetched" ∈ md.map Prod.fst ∧ "etag_release" ∈ md.map Prod.fst ∧
      "etag_repository" ∈ md.map Prod.fst := by
  obtain ⟨rd, etg, d, lv, lp, etagRel, _, _, _, _, _, _, _, hmd⟩ :=
    fetch_metadata_valid_inv h
  subst hmd
  cases htr : optStrTruthy lp with
  | false =>
      rw [buildRecord_keys_noPre _ _ _ _ _ _ _ _ _ htr]
      exact ⟨by decide, by decide, by decide⟩
  | true =>
      cases lp with
      | none => simp [optStrTruthy] at htr
      | some s =>
          rw [buildRecord_keys_pre _ _ _ _ _ _ _ _ s
            (by simpa [optStrTruthy] using htr)]
          exact ⟨by decide, by decide, by decide⟩

/-- If every input resolves valid, every completed outcome is valid. -/
theorem outs_all_valid {envs : List (String × RepoEnv)}
    (hall : ∀ p ∈ envs, ∃ i md, fetch_metadata p.1 p.2 = .ok (.valid i md)) :
    ∀ o ∈ batchOutcomes envs, isValidOutcome o = true := by
  intro o ho
  obtain ⟨q, hq, hfm⟩ := batchOutcomes_mem ho
  obtain ⟨i, md, hv⟩ := hall q hq
  rw [hv] at hfm
  simp only [Except.ok.injEq] at hfm
  subst hfm
  rfl

/-- An all-valid outcome list is its own list of valid pairs. -/
theorem all_valid_eq_map {outs : List FetchOutcome}
    (h : ∀ o ∈ outs, isValidOutcome o = true) :
    outs = (validPairs outs).map (fun p => FetchOutcome.valid p.1 p.2) := by
  induction outs with
  | nil => rfl
  | cons o rest ih =>
      cases o with
      | valid i md =>
          simp only [validPairs, List.filterMap_cons, List.map_cons]
          exact congrArg (FetchOutcome.valid i md :: ·)
            (by simpa [validPairs] using
              ih (fun o ho => h o (List.mem_cons_of_mem _ ho)))
      | archivedRepo =>
          exact absurd (h _ (List.mem_cons_self _ _)) (by simp [isValidOutcome])
      | skipped =>
          exact absurd (h _ (List.mem_cons_self _ _)) (by simp [isValidOutcome])

/-- Rename counting over an all-valid reduction with pairwise distinct
resolved strings: each step compares its string against the input entry
at the string's first index in the valid list, which under these
hypotheses is the step's own position. -/
theorem renamed_fold (pairs : List (Nat × Record)) (repos : List String)
    (st : AggState)
    (hnd : (st.valid_repositories ++ pairs.map (fun p => recRepository p.2)).Nodup) :
    ((pairs.map (fun p => FetchOutcome.valid p.1 p.2)).foldl
        (aggStep repos) st).renamed_plugins =
      st.renamed_plugins +
        countMismatch repos st.valid_repositories.length
          (pairs.map (fun p => recRepository p.2)) := by
  induction pairs generalizing st with
  | nil => simp [countMismatch]
  | cons p rest ih =>
      obtain ⟨i, md⟩ := p
      simp only [List.map_cons, List.foldl_cons]
      have hs : recRepository md ∉ st.valid_repositories := by
        intro hmem
        have hd := List.nodup_append.mp (by simpa using hnd)
        exact hd.2.2 hmem (List.mem_cons_self _ _)
      have hidx : (st.valid_repositories ++ [recRepository md]).indexOf
          (recRepository md) = st.valid_repositories.length := by
        rw [List.indexOf_append_of_not_mem hs, List.indexOf_cons_self]
        omega
      have hstep_vr : (aggStep repos st (.valid i md)).valid_repositories =
          st.valid_repositories ++ [recRepository md] := rfl
      have hnd2 : ((aggStep repos st (.valid i md)).valid_repositories ++
          rest.map (fun p => recRepository p.2)).Nodup := by
        rw [hstep_vr, List.append_assoc, List.singleton_append]
        simpa using hnd
      rw [ih _ hnd2]
      have hren : (aggStep repos st (.valid i md)).renamed_plugins =
          if recRepository md ≠
              repos.getD ((st.valid_repositories ++
                [recRepository md]).indexOf (recRepository md)) "" then
            st.renamed_plugins + 1
          else st.renamed_plugins := rfl
      have hcm : countMismatch repos st.valid_repositories.length
          (recRepository md :: rest.map (fun p => recRepository p.2)) =
          (if recRepository md ≠
              repos.getD st.valid_repositories.length "" then 1 else 0) +
            countMismatch repos (st.valid_repositories.length + 1)
              (rest.map (fun p => recRepository p.2)) := rfl
      rw [hren, hidx, hcm]
      simp only [hstep_vr, List.length_append, List.length_singleton]
      by_cases hA : recRepository md ≠ repos.getD st.valid_repositories.length ""
      · rw [if_pos hA, if_pos hA]
        omega
      · rw [if_neg hA, if_neg hA]
        omega

/-- Position-shifted mismatch counting as a zip-and-filter. -/
theorem countMismatch_eq_zip (repos : List String) (ss : List String) (n : Nat)
    (h : n + ss.length ≤ repos.length) :
    countMismatch repos n ss =
      ((ss.zip (repos.drop n)).filter (fun q => q.1 ≠ q.2)).length := by
  induction ss generalizing n with
  | nil => simp [countMismatch]
  | cons s rest ih =>
      have hn : n < repos.length := by
        simp only [List.length_cons] at h
        omega
      rw [List.drop_eq_getElem_cons hn]
      have hgd : repos.getD n "" = repos[n] := by
        simp [List.getD_eq_getElem?_getD, List.getElem?_eq_getElem hn]
      simp only [countMismatch, List.zip_cons_cons, List.filter_cons, hgd]
      rw [ih (n + 1) (by simp only [List.length_cons] at h; omega)]
      by_cases hc : s ≠ repos[n]
      · simp [hc]
        omega
      · simp [hc]

/-- Sorting the releases permutes them. -/
theorem sortReleasesDesc_perm (rs : List Release) :
    (sortReleasesDesc rs).Perm rs :=
  List.perm_insertionSort _ _

/-- The release sort is descending by creation time. -/
theorem sortReleasesDesc_sorted (rs : List Release) :
    List.Sorted (fun a b => b.created_at ≤ a.created_at) (sortReleasesDesc rs) := by
  haveI : IsTotal Release (fun a b => b.created_at ≤ a.created_at) :=
    ⟨fun a b => le_total _ _⟩
  haveI : IsTrans Release (fun a b => b.created_at ≤ a.created_at) :=
    ⟨fun a b c hab hbc => le_trans hbc hab⟩
  exact List.sorted_insertionSort _ _

/-- The first match in a descending-sorted list has maximal creation
time among all matches. -/
theorem find?_sorted_created_max {p : Release → Bool} {l : List Release}
    (hs : List.Sorted (fun a b => b.created_at ≤ a.created_at) l)
    {x : Release} (hf : l.find? p = some x) :
    ∀ y ∈ l, p y = true → y.created_at ≤ x.created_at := by
  induction l with
  | nil => simp at hf
  | cons a t ih =>
      cases hp : p a with
      | true =>
          rw [List.find?_cons_of_pos _ hp] at hf
          have hax : a = x := by injection hf
          subst hax
          intro y hy hpy
          rcases List.mem_cons.mp hy with rfl | hyt
          · exact le_refl _
          · exact List.rel_of_sorted_cons hs y hyt
      | false =>
          rw [List.find?_cons_of_neg _ (by simp [hp])] at hf
          intro y hy hpy
          rcases List.mem_cons.mp hy with rfl | hyt
          · rw [hp] at hpy; cases hpy
          · exact ih ((List.pairwise_cons.mp hs).2) hf y hyt hpy

/-! ### Claims C1, C2 (error propagation at the resolver boundary) -/

/-- Claim C1: the batch run should complete and write all four
artifacts for every behaviour of the repository client, because every
error raised during a single repository's resolution is supposedly
caught inside `fetch_metadata`.  The code violates this: when a
repository passes the archival, domain and manifest steps but its
releases listing raises (here a non-NotFound `GitHubException`),
`fetch_releases` catches the error and falls through returning `None`,
and the tuple unpacking at its call site raises an uncaught `TypeError`
that escapes `fetch_metadata` and aborts the whole batch — even though
the other repository in the batch resolves fine on its own. -/
theorem C1_single_repo_error_aborts_batch :
    generate_metadata
      [("owner/alpha", envValid "owner/alpha" 1 "alpha_plugin" releasesEx),
       ("owner/beta", envRelOtherError "owner/beta" 2 "beta_plugin")] =
      .error .typeError ∧
    (fetch_metadata "owner/alpha"
      (envValid "owner/alpha" 1 "alpha_plugin" releasesEx)).toOption.isSome = true :=
  ⟨rfl, rfl⟩

/-- Claim C2: a `NotFound` response from the releases listing should be
treated as "no releases" (resolution succeeds with both version fields
absent).  The code violates this: `fetch_releases` catches the
`GitHubNotFoundException`, logs, and returns Python `None`; unpacking
that return value in `fetch_metadata` raises an uncaught `TypeError`,
so the repository's resolution aborts instead of succeeding. -/
theorem C2_release_notFound_raises_uncaught :
    fetch_releases (envRelNotFound "owner/gamma" 3 "gamma_plugin") = (none, none) ∧
    fetch_metadata "owner/gamma" (envRelNotFound "owner/gamma" 3 "gamma_plugin") =
      .error .typeError :=
  ⟨rfl, rfl⟩

/-! ### Claim C4 (repository field vs canonical name) -/

/-- Claim C4 counterexample: when the canonical name returned by
`getRepository` differs from the input identifier only in letter case,
the rename branch (which compares lowercased names) does not fire, so
the emitted record's `repository` field keeps the input identifier
"Owner/Repo" rather than the canonical "owner/repo". -/
theorem C4_counterexample :
    (envValid "owner/repo" 7 "dom_plugin" []).getRepo =
      .ok (repoDataOk "owner/repo" 7) (some "W/repo-etag") ∧
    (repoDataOk "owner/repo" 7).full_name = "owner/repo" ∧
    jget (wMdOf "Owner/Repo" (envValid "owner/repo" 7 "dom_plugin" []))
      "repository" = some (.str "Owner/Repo") ∧
    "Owner/Repo" ≠ "owner/repo" :=
  ⟨rfl, rfl, rfl, by decide⟩

/-- Claim C4 (amended): for every record emitted as valid, the
`repository` field equals the canonical `fullName` returned by
`getRepository` whenever the canonical name differs from the input
identifier beyond letter case; when the two agree case-insensitively
(including the case-only-difference situation) the field keeps the
input identifier unchanged. -/
theorem C4_repository_canonical {repo : String} {env : RepoEnv} {i : Nat}
    {md : Record} {rd : RepoData} {etg : Option String}
    (henv : env.getRepo = .ok rd etg)
    (h : fetch_metadata repo env = .ok (.valid i md)) :
    (pyLower rd.full_name ≠ pyLower repo →
      jget md "repository" = some (.str rd.full_name)) ∧
    (pyLower rd.full_name = pyLower repo →
      jget md "repository" = some (.str repo)) := by
  obtain ⟨rd', etg', d, lv, lp, etagRel, hget, _, _, _, _, _, _, hmd⟩ :=
    fetch_metadata_valid_inv h
  rw [henv] at hget
  obtain ⟨h1, h2⟩ : rd = rd' ∧ etg = etg' := by
    cases hget; exact ⟨rfl, rfl⟩
  subst h1
  subst h2
  subst hmd
  constructor
  · intro hne
    rw [buildRecord_jget_repository, if_pos hne]
  · intro heq
    rw [buildRecord_jget_repository, if_neg (by simp [heq])]

/-- Witness for C4: a genuinely renamed repository ("old/name" resolved
canonically to "new/name") emits the canonical name. -/
theorem C4_repository_canonical_witness :
    jget (wMdOf "old/name" (envValid "new/name" 5 "dom_plugin" []))
      "repository" = some (.str "new/name") :=
  (C4_repository_canonical (rfl :
      (envValid "new/name" 5 "dom_plugin" []).getRepo =
        .ok (repoDataOk "new/name" 5) (some "W/repo-etag"))
    (rfl : fetch_metadata "old/name" (envValid "new/name" 5 "dom_plugin" []) =
      .ok (.valid 5 (wMdOf "old/name" (envValid "new/name" 5 "dom_plugin" []))))).1
    (by decide)

/-! ### Claim C6 (valid records have a manifest-matching domain) -/

/-- Claim C6: every record emitted as valid carries a non-null `domain`
field equal to the `domain` declared in the parsed manifest; a
folder/manifest domain mismatch is never emitted as valid (the
validation step returns false and the repository is skipped). -/
theorem C6_domain_matches_manifest {repo : String} {env : RepoEnv} {i : Nat}
    {md : Record} (h : fetch_metadata repo env = .ok (.valid i md)) :
    ∃ d m etg, jget md "domain" = some (.str d) ∧ d ≠ "" ∧
      env.manifestFile = .ok (some m) etg ∧
      isStrVal (jget m "domain") d = true := by
  obtain ⟨rd, etg', d, lv, lp, etagRel, hget, _, hdom, hde, hvd, hrel, hid, hmd⟩ :=
    fetch_metadata_valid_inv h
  obtain ⟨m, etg, hm, hstr, _⟩ := validate_true_inv hvd
  subst hmd
  exact ⟨d, m, etg, buildRecord_jget_domain _ _ _ _ _ _ _ _ _, hde, hm,
    by simpa using hstr⟩

/-- Witness for C6 at a concrete fully-valid behaviour. -/
theorem C6_domain_matches_manifest_witness :
    fetch_metadata "owner/zeta" (envValid "owner/zeta" 11 "zeta_plugin" releasesEx) =
      .ok (.valid 11
        (wMdOf "owner/zeta" (envValid "owner/zeta" 11 "zeta_plugin" releasesEx))) ∧
    ∃ d m etg,
      jget (wMdOf "owner/zeta" (envValid "owner/zeta" 11 "zeta_plugin" releasesEx))
        "domain" = some (.str d) ∧ d ≠ "" ∧
      (envValid "owner/zeta" 11 "zeta_plugin" releasesEx).manifestFile =
        .ok (some m) etg ∧
      isStrVal (jget m "domain") d = true :=
  ⟨rfl, C6_domain_matches_manifest rfl⟩

/-! ### Claim C8 (record key ordering) -/

/-- Claim C8: every emitted valid record lists `manifest` first, then
`domain`, then all remaining keys in ascending code-point order, with
`last_prerelease` sorted into place when present.  The two possible key
sequences are fixed, so runs producing the same key set order them
identically. -/
theorem C8_record_key_order {repo : String} {env : RepoEnv} {i : Nat}
    {md : Record} (h : fetch_metadata repo env = .ok (.valid i md)) :
    (md.map Prod.fst =
       ["manifest", "domain", "etag_release", "etag_repository", "last_fetched",
        "last_updated", "last_version", "open_issues", "repository",
        "stargazers_count", "topics"] ∨
     md.map Prod.fst =
       ["manifest", "domain", "etag_release", "etag_repository", "last_fetched",
        "last_prerelease", "last_updated", "last_version", "open_issues",
        "repository", "stargazers_count", "topics"]) ∧
    strictAscending (List.drop 2 (md.map Prod.fst)) = true := by
  obtain ⟨rd, etg', d, lv, lp, etagRel, hget, _, hdom, hde, hvd, hrel, hid, hmd⟩ :=
    fetch_metadata_valid_inv h
  subst hmd
  cases htr : optStrTruthy lp with
  | false =>
      rw [buildRecord_keys_noPre _ _ _ _ _ _ _ _ _ htr]
      exact ⟨Or.inl rfl, by rfl⟩
  | true =>
      cases lp with
      | none => simp [optStrTruthy] at htr
      | some s =>
          rw [buildRecord_keys_pre _ _ _ _ _ _ _ _ s (by simpa [optStrTruthy] using htr)]
          exact ⟨Or.inr rfl, by rfl⟩

/-- Witness for C8 at a concrete behaviour with a prerelease present. -/
theorem C8_record_key_order_witness :
    fetch_metadata "owner/eta" (envValid "owner/eta" 13 "eta_plugin" releasesEx) =
      .ok (.valid 13
        (wMdOf "owner/eta" (envValid "owner/eta" 13 "eta_plugin" releasesEx))) ∧
    ((wMdOf "owner/eta" (envValid "owner/eta" 13 "eta_plugin" releasesEx)).map
        Prod.fst =
       ["manifest", "domain", "etag_release", "etag_repository", "last_fetched",
        "last_updated", "last_version", "open_issues", "repository",
        "stargazers_count", "topics"] ∨
     (wMdOf "owner/eta" (envValid "owner/eta" 13 "eta_plugin" releasesEx)).map
        Prod.fst =
       ["manifest", "domain", "etag_release", "etag_repository", "last_fetched",
        "last_prerelease", "last_updated", "last_version", "open_issues",
        "repository", "stargazers_count", "topics"]) ∧
    strictAscending
      (List.drop 2
        ((wMdOf "owner/eta" (envValid "owner/eta" 13 "eta_plugin" releasesEx)).map
          Prod.fst)) = true :=
  ⟨rfl, @C8_record_key_order "owner/eta" (envValid "owner/eta" 13 "eta_plugin" releasesEx)
    13 (wMdOf "owner/eta" (envValid "owner/eta" 13 "eta_plugin" releasesEx)) rfl⟩

/-! ### Claim C5 (summary partition; archived excluded from outputs) -/

/-- Claim C5: for every completed run, total_plugins equals the input
length and equals valid + archived + skipped; each completed outcome is
classified into exactly one bucket (the three counters count the three
outcome kinds), and the data mapping and repositories list are built
from the valid outcomes alone, so an archived repository appears in
neither data.json nor repositories.json (renamed is a separate overlay
counter, not a fourth bucket). -/
theorem C5_summary_partition {envs : List (String × RepoEnv)} {art : Artifacts}
    (h : generate_metadata envs = .ok art) :
    art.summary.total_plugins = envs.length ∧
    art.summary.total_plugins =
      art.summary.valid_plugins + art.summary.archived_plugins +
        art.summary.skipped_plugins ∧
    art.summary.valid_plugins = (batchOutcomes envs).countP isValidOutcome ∧
    art.summary.archived_plugins = (batchOutcomes envs).countP isArchivedOutcome ∧
    art.summary.skipped_plugins = (batchOutcomes envs).countP isSkippedOutcome ∧
    art.dataJson =
      (validPairs (batchOutcomes envs)).foldl (fun d p => dictInsert p.1 p.2 d) [] ∧
    art.repositoriesJson =
      (validPairs (batchOutcomes envs)).map (fun p => recRepository p.2) := by
  obtain ⟨rfl, hfe⟩ := generate_ok_inv h
  have hlen := noError_length hfe
  have hpart := outcome_partition (batchOutcomes envs)
  have hvp := validPairs_length (batchOutcomes envs)
  have hvr := aggFoldl_vr (batchOutcomes envs) (envs.map (·.1)) initState
  have hpd := aggFoldl_pd (batchOutcomes envs) (envs.map (·.1)) initState
  have harc := aggFoldl_archived (batchOutcomes envs) (envs.map (·.1)) initState
  have hskp := aggFoldl_skipped (batchOutcomes envs) (envs.map (·.1)) initState
  refine ⟨by simp [mkArtifacts], ?_, ?_, ?_, ?_, ?_, ?_⟩
  · simp only [mkArtifacts, aggFinal, List.length_map]
    rw [hvr, harc, hskp]
    simp only [initState, List.nil_append, List.length_map]
    rw [hvp]
    omega
  · simp only [mkArtifacts, aggFinal]
    rw [hvr]
    simp [initState, hvp]
  · simp only [mkArtifacts, aggFinal]
    rw [harc]
    simp [initState]
  · simp only [mkArtifacts, aggFinal]
    rw [hskp]
    simp [initState]
  · simp only [mkArtifacts, aggFinal]
    rw [hpd]
    simp [initState]
  · simp only [mkArtifacts, aggFinal]
    rw [hvr]
    simp [initState]

/-- Witness for C5 on a mixed batch: 3 = 1 + 1 + 1. -/
theorem C5_summary_partition_witness :
    generate_metadata wEnvsMixed = .ok (wArtOf wEnvsMixed) ∧
    (wArtOf wEnvsMixed).summary.total_plugins = 3 ∧
    (wArtOf wEnvsMixed).summary.total_plugins =
      (wArtOf wEnvsMixed).summary.valid_plugins +
        (wArtOf wEnvsMixed).summary.archived_plugins +
        (wArtOf wEnvsMixed).summary.skipped_plugins :=
  ⟨rfl, rfl, (@C5_summary_partition wEnvsMixed (wArtOf wEnvsMixed) rfl).2.1⟩

/-! ### Claim C9 (diff baseline strips only the volatile fields) -/

/-- Claim C9: diff/after.json is exactly data.json with the
COMPARE_IGNORE keys (last_fetched, etag_release, etag_repository)
removed from every record: same record ids in the same order, all other
fields untouched in key, value and order, and the three stripped keys
are really present in every data.json record. -/
theorem C9_after_strips_volatile {envs : List (String × RepoEnv)}
    {art : Artifacts} (h : generate_metadata envs = .ok art) :
    art.afterJson =
      art.dataJson.map
        (fun p => (p.1, p.2.filter (fun q => !(COMPARE_IGNORE.contains q.1)))) ∧
    art.afterJson.map Prod.fst = art.dataJson.map Prod.fst ∧
    ∀ p ∈ art.dataJson,
      "last_fetched" ∈ p.2.map Prod.fst ∧
      "etag_release" ∈ p.2.map Prod.fst ∧
      "etag_repository" ∈ p.2.map Prod.fst := by
  obtain ⟨rfl, hfe⟩ := generate_ok_inv h
  refine ⟨rfl, by simp [mkArtifacts, save_filtered_json], ?_⟩
  intro p hp
  have hpd := aggFoldl_pd (batchOutcomes envs) (envs.map (·.1)) initState
  simp only [mkArtifacts, aggFinal] at hp
  rw [hpd] at hp
  simp only [initState] at hp
  rcases mem_dictFoldl_pair _ _ hp with h2 | h2
  · simp at h2
  · have hv := validPairs_mem h2
    obtain ⟨q, hq, hfm⟩ := batchOutcomes_mem hv
    exact valid_record_volatile_keys hfm

/-- Witness for C9 on the mixed batch. -/
theorem C9_after_strips_volatile_witness :
    generate_metadata wEnvsMixed = .ok (wArtOf wEnvsMixed) ∧
    (wArtOf wEnvsMixed).afterJson =
      (wArtOf wEnvsMixed).dataJson.map
        (fun p => (p.1, p.2.filter (fun q => !(COMPARE_IGNORE.contains q.1)))) :=
  ⟨rfl, (@C9_after_strips_volatile wEnvsMixed (wArtOf wEnvsMixed) rfl).1⟩

/-! ### Claim C10 (id collisions: later success overwrites earlier) -/

/-- Claim C10: the data.json mapping has at most valid_plugins records,
with equality exactly when the successful resolutions yield pairwise
distinct numeric ids; valid_plugins counts every valid outcome and the
repositories list keeps one entry per valid outcome regardless of id
collisions, and lookup of any id returns the record of the last valid
outcome with that id (the later success overwrites the earlier one). -/
theorem C10_mapping_size_overwrite {envs : List (String × RepoEnv)}
    {art : Artifacts} (h : generate_metadata envs = .ok art) :
    art.dataJson.length ≤ art.summary.valid_plugins ∧
    (art.dataJson.length = art.summary.valid_plugins ↔
      ((validPairs (batchOutcomes envs)).map Prod.fst).Nodup) ∧
    art.summary.valid_plugins = (validPairs (batchOutcomes envs)).length ∧
    art.repositoriesJson.length = art.summary.valid_plugins ∧
    ∀ k, dictLookup k art.dataJson =
      ((validPairs (batchOutcomes envs)).reverse.find?
        (fun p => p.1 == k)).map Prod.snd := by
  obtain ⟨rfl, hfe⟩ := generate_ok_inv h
  have hpd := aggFoldl_pd (batchOutcomes envs) (envs.map (·.1)) initState
  have hvr := aggFoldl_vr (batchOutcomes envs) (envs.map (·.1)) initState
  have hdata : (mkArtifacts envs).dataJson =
      (validPairs (batchOutcomes envs)).foldl (fun d p => dictInsert p.1 p.2 d) [] := by
    simp only [mkArtifacts, aggFinal]
    rw [hpd]
    simp [initState]
  have hvalid : (mkArtifacts envs).summary.valid_plugins =
      (validPairs (batchOutcomes envs)).length := by
    simp only [mkArtifacts, aggFinal]
    rw [hvr]
    simp [initState]
  have hlen : ((validPairs (batchOutcomes envs)).foldl
        (fun d p => dictInsert p.1 p.2 d) []).length =
      ((validPairs (batchOutcomes envs)).map Prod.fst).dedup.length := by
    have h2 := dictFoldl_keys_length (validPairs (batchOutcomes envs))
    rwa [List.length_map] at h2
  refine ⟨?_, ?_, hvalid, rfl, ?_⟩
  · rw [hdata, hvalid, hlen]
    calc ((validPairs (batchOutcomes envs)).map Prod.fst).dedup.length
        ≤ ((validPairs (batchOutcomes envs)).map Prod.fst).length :=
          (List.dedup_sublist _).length_le
      _ = (validPairs (batchOutcomes envs)).length := List.length_map _ _
  · rw [hdata, hvalid, hlen]
    constructor
    · intro hEq
      have hfull : ((validPairs (batchOutcomes envs)).map Prod.fst).dedup =
          (validPairs (batchOutcomes envs)).map Prod.fst :=
        (List.dedup_sublist _).eq_of_length (by rw [hEq, List.length_map])
      exact List.dedup_eq_self.mp hfull
    · intro hnd
      rw [List.dedup_eq_self.mpr hnd, List.length_map]
  · intro k
    rw [hdata, dictFoldl_lookup]
    simp [dictLookup]

/-- Witness for C10: two valid repositories sharing id 31 collapse to
one mapping record while both stay counted and listed. -/
theorem C10_mapping_size_overwrite_witness :
    generate_metadata wEnvsDup = .ok (wArtOf wEnvsDup) ∧
    (wArtOf wEnvsDup).dataJson.length = 1 ∧
    (wArtOf wEnvsDup).summary.valid_plugins = 2 ∧
    (wArtOf wEnvsDup).repositoriesJson = ["d/one", "d/two"] ∧
    (wArtOf wEnvsDup).dataJson.length ≤ (wArtOf wEnvsDup).summary.valid_plugins ∧
    dictLookup 31 (wArtOf wEnvsDup).dataJson =
      ((validPairs (batchOutcomes wEnvsDup)).reverse.find?
        (fun p => p.1 == 31)).map Prod.snd :=
  ⟨rfl, rfl, rfl, rfl,
    (@C10_mapping_size_overwrite wEnvsDup (wArtOf wEnvsDup) rfl).1,
    (@C10_mapping_size_overwrite wEnvsDup (wArtOf wEnvsDup) rfl).2.2.2.2 31⟩

/-! ### Claim C3 (renamed counter) -/

/-- Claim C3 counterexample: in the batch [a/x (repository gone, so
skipped), a/y (valid, not renamed)] the single valid result's emitted
string "a/y" equals the input entry at its own position 1, so the claim
predicts renamed_plugins = 0; the code's value-lookup
`valid_repositories.index(...)` lands on position 0 ("a/x") and counts
a rename: renamed_plugins = 1. -/
theorem C3_counterexample :
    (generate_metadata
        [("a/x", envRepoGone), ("a/y", envValid "a/y" 3 "dom_plugin" [])]).toOption.map
      (fun art => (art.summary.renamed_plugins, art.repositoriesJson)) =
      some (1, ["a/y"]) ∧
    ["a/x", "a/y"].getD 1 "" = "a/y" :=
  ⟨rfl, rfl⟩

/-- Claim C3 (amended): the renamed counter equals the number of valid
results whose emitted repository string differs from their index-aligned
input entry provided every completed resolution is valid and the
resolved strings are pairwise distinct; without those hypotheses the
code's value-lookup detection can misattribute (see the
counterexample). -/
theorem C3_renamed_counter {envs : List (String × RepoEnv)} {art : Artifacts}
    (h : generate_metadata envs = .ok art)
    (hall : ∀ p ∈ envs, ∃ i md, fetch_metadata p.1 p.2 = .ok (.valid i md))
    (hnd : art.repositoriesJson.Nodup) :
    art.summary.renamed_plugins =
      ((art.repositoriesJson.zip (envs.map Prod.fst)).filter
        (fun q => q.1 ≠ q.2)).length := by
  obtain ⟨rfl, hfe⟩ := generate_ok_inv h
  have hallv := outs_all_valid hall
  have houts := all_valid_eq_map hallv
  have hvr := aggFoldl_vr (batchOutcomes envs) (envs.map (·.1)) initState
  have hrepos : (mkArtifacts envs).repositoriesJson =
      (validPairs (batchOutcomes envs)).map (fun p => recRepository p.2) := by
    simp only [mkArtifacts, aggFinal]
    rw [hvr]
    simp [initState]
  have hnd2 : ((validPairs (batchOutcomes envs)).map
      (fun p => recRepository p.2)).Nodup := by
    rwa [hrepos] at hnd
  have hren : (mkArtifacts envs).summary.renamed_plugins =
      countMismatch (envs.map (·.1)) 0
        ((validPairs (batchOutcomes envs)).map (fun p => recRepository p.2)) := by
    simp only [mkArtifacts, aggFinal]
    conv_lhs => rw [houts]
    rw [renamed_fold _ _ _ (by simpa [initState] using hnd2)]
    simp [initState]
  have hlenouts := noError_length hfe
  have hvplen : (validPairs (batchOutcomes envs)).length =
      (batchOutcomes envs).length := by
    rw [validPairs_length]
    exact List.countP_eq_length.mpr hallv
  rw [hrepos, hren, countMismatch_eq_zip]
  · simp
  · simp only [List.length_map, Nat.zero_add]
    omega

/-- Witness for C3 (amended): one rename out of two valid results. -/
theorem C3_renamed_counter_witness :
    generate_metadata wEnvsRenamed = .ok (wArtOf wEnvsRenamed) ∧
    (wArtOf wEnvsRenamed).repositoriesJson = ["r/new", "r/same"] ∧
    (wArtOf wEnvsRenamed).summary.renamed_plugins =
      (((wArtOf wEnvsRenamed).repositoriesJson.zip
          (wEnvsRenamed.map Prod.fst)).filter (fun q => q.1 ≠ q.2)).length :=
  ⟨rfl, rfl,
    @C3_renamed_counter wEnvsRenamed (wArtOf wEnvsRenamed) rfl
      (by
        intro p hp
        simp only [wEnvsRenamed, List.mem_cons, List.mem_singleton,
          List.not_mem_nil, or_false] at hp
        rcases hp with rfl | rfl
        · exact ⟨41, _, rfl⟩
        · exact ⟨42, _, rfl⟩)
      (by decide)⟩

/-! ### Claim C7 (release selection) -/

/-- Claim C7: on a non-empty release list, lastVersion is present
exactly when a non-prerelease entry exists and is then the tag of a
newest (maximal creation time) non-prerelease entry; independently,
lastPrerelease is present exactly when a prerelease entry exists and is
then the tag of a newest prerelease entry. -/
theorem C7_release_selection {env : RepoEnv} {data : List Release}
    {etag : Option String} {lv lp : Option String} {etg : Option String}
    (hrel : env.releasesList = .ok data etag) (hne : data ≠ [])
    (hout : fetch_releases env = (some (lv, lp), etg)) :
    ((∃ r ∈ data, r.prerelease = false) ↔ lv.isSome) ∧
    (∀ v, lv = some v → ∃ r ∈ data, r.prerelease = false ∧ r.tag_name = v ∧
      ∀ r2 ∈ data, r2.prerelease = false → r2.created_at ≤ r.created_at) ∧
    ((∃ r ∈ data, r.prerelease = true) ↔ lp.isSome) ∧
    (∀ v, lp = some v → ∃ r ∈ data, r.prerelease = true ∧ r.tag_name = v ∧
      ∀ r2 ∈ data, r2.prerelease = true → r2.created_at ≤ r.created_at) := by
  unfold fetch_releases at hout
  rw [hrel] at hout
  have hne2 : data.isEmpty = false := by
    cases data with
    | nil => exact absurd rfl hne
    | cons a t => rfl
  simp only [hne2, Bool.false_eq_true, if_false, Prod.mk.injEq,
    Option.some.injEq] at hout
  obtain ⟨⟨hlv, hlp⟩, hetg⟩ := hout
  have hmem : ∀ r : Release, r ∈ sortReleasesDesc data ↔ r ∈ data :=
    fun r => (sortReleasesDesc_perm data).mem_iff
  have hsorted := sortReleasesDesc_sorted data
  refine ⟨?_, ?_, ?_, ?_⟩
  · rw [← hlv]
    simp only [Option.isSome_map']
    rw [List.find?_isSome]
    constructor
    · rintro ⟨r, hr, hpre⟩
      exact ⟨r, (hmem r).mpr hr, by simp [hpre]⟩
    · rintro ⟨r, hr, hpre⟩
      exact ⟨r, (hmem r).mp hr, by simpa using hpre⟩
  · intro v hv
    rw [← hlv] at hv
    rw [Option.map_eq_some'] at hv
    obtain ⟨x, hfind, htag⟩ := hv
    have hpx : x.prerelease = false := by
      have := List.find?_some hfind
      simpa using this
    have hxmem : x ∈ data := (hmem x).mp (List.mem_of_find?_eq_some hfind)
    refine ⟨x, hxmem, hpx, htag, ?_⟩
    intro r2 hr2 hp2
    exact find?_sorted_created_max hsorted hfind r2 ((hmem r2).mpr hr2)
      (by simp [hp2])
  · rw [← hlp]
    simp only [Option.isSome_map']
    rw [List.find?_isSome]
    constructor
    · rintro ⟨r, hr, hpre⟩
      exact ⟨r, (hmem r).mpr hr, hpre⟩
    · rintro ⟨r, hr, hpre⟩
      exact ⟨r, (hmem r).mp hr, hpre⟩
  · intro v hv
    rw [← hlp] at hv
    rw [Option.map_eq_some'] at hv
    obtain ⟨x, hfind, htag⟩ := hv
    have hpx : x.prerelease = true := List.find?_some hfind
    have hxmem : x ∈ data := (hmem x).mp (List.mem_of_find?_eq_some hfind)
    refine ⟨x, hxmem, hpx, htag, ?_⟩
    intro r2 hr2 hp2
    exact find?_sorted_created_max hsorted hfind r2 ((hmem r2).mpr hr2) hp2

/-- Witness for C7 at the spec's worked example: releases
[(v2, created 2, stable), (v3-rc, created 3, prerelease),
(v1, created 1, stable)] select lastVersion "v2" and lastPrerelease
"v3-rc". -/
theorem C7_release_selection_witness :
    fetch_releases (envValid "o/r" 1 "dom_plugin" releasesEx) =
      (some (some "v2", some "v3-rc"), some "W/rel-etag") ∧
    (∃ r ∈ releasesEx, r.prerelease = false ∧ r.tag_name = "v2" ∧
      ∀ r2 ∈ releasesEx, r2.prerelease = false → r2.created_at ≤ r.created_at) ∧
    (∃ r ∈ releasesEx, r.prerelease = true ∧ r.tag_name = "v3-rc" ∧
      ∀ r2 ∈ releasesEx, r2.prerelease = true → r2.created_at ≤ r.created_at) :=
  ⟨rfl,
    (@C7_release_selection (envValid "o/r" 1 "dom_plugin" releasesEx) releasesEx
        (some "W/rel-etag") (some "v2") (some "v3-rc") (some "W/rel-etag")
        rfl (by decide) rfl).2.1 "v2" rfl,
    (@C7_release_selection (envValid "o/r" 1 "dom_plugin" releasesEx) releasesEx
        (some "W/rel-etag") (some "v2") (some "v3-rc") (some "W/rel-etag")
        rfl (by decide) rfl).2.2.2 "v3-rc" rfl⟩

end RHStore
